import Mathlib

/-!
Verification of the API-key lifecycle subsystem of `hello_actix`
(`src/auth.rs`, `src/db.rs`), against its natural-language specification.

Modelling conventions (shallow embedding):
* Rust `String` / `Vec<u8>` values are modelled as `List Nat` of byte values
  (`Bytes`).  All credential data in this subsystem is ASCII, so UTF-8
  validity is not tracked; `String::from_utf8` is modelled as the identity
  on byte lists.
* The SQLite `api_keys` table is modelled as a list of `DbRow` in insertion
  (rowid) order; `INSERT` appends, `UPDATE ... WHERE api_key = ?` maps over
  the rows, and the `SELECT ... WHERE revoked_at IS NULL` of `load_api_keys`
  filters the rows in order.  Connection-pool and statement errors are not
  modelled (the claims under study are about the success path of storage).
* The process-global `API_KEYS: RwLock<HashMap<String, Vec<u8>>>` cache is
  modelled as an association list with `HashMap::insert` (replace) semantics.
* The `master.key` file is modelled as `Option Bytes` (absent / contents).
* Randomness (`ring::rand::SystemRandom`, `fastrand`) is modelled by passing
  the random streams as explicit `Nat → Nat` arguments.
* `ring`'s AES-256-GCM AEAD (`seal_in_place_append_tag` / `open_in_place`)
  is an external crate, not part of this repository.  It is modelled from
  the spec (section 4.2): an authenticated-encryption scheme with a
  16-byte tag appended to the ciphertext, where the tag is bound to the
  key, nonce, associated data (the salt) and ciphertext, and opening
  verifies the tag before decrypting.  The keystream / tag functions below
  are executable stand-ins keeping exactly the structure the spec relies
  on: XOR-stream confidentiality (so decryption inverts encryption) and a
  tag that is affine in the (one-block, 16-byte) AAD, mirroring GHASH,
  so distinct salts always yield distinct tags.
-/

set_option maxRecDepth 100000

namespace HelloActix

abbrev Bytes := List Nat

/-! ### Base64 (base64::engine::general_purpose::STANDARD_NO_PAD) -/

/-- One 6-bit value to its base64 alphabet byte (RFC 4648 standard alphabet). -/
def base64EncChar (v : Nat) : Nat :=
  if v < 26 then 65 + v
  else if v < 52 then 97 + (v - 26)
  else if v < 62 then 48 + (v - 52)
  else if v = 62 then 43
  else 47

/-- One base64 alphabet byte back to its 6-bit value. -/
def base64DecChar (c : Nat) : Option Nat :=
  if 65 ≤ c ∧ c ≤ 90 then some (c - 65)
  else if 97 ≤ c ∧ c ≤ 122 then some (c - 97 + 26)
  else if 48 ≤ c ∧ c ≤ 57 then some (c - 48 + 52)
  else if c = 43 then some 62
  else if c = 47 then some 63
  else none

/-- `BASE64.encode` with no padding: 3 input bytes become 4 alphabet bytes,
a trailing byte becomes 2, two trailing bytes become 3. -/
def base64Encode : Bytes → Bytes
  | [] => []
  | [b0] => [base64EncChar (b0 / 4), base64EncChar (b0 % 4 * 16)]
  | [b0, b1] =>
    [base64EncChar (b0 / 4), base64EncChar (b0 % 4 * 16 + b1 / 16),
     base64EncChar (b1 % 16 * 4)]
  | b0 :: b1 :: b2 :: rest =>
    base64EncChar (b0 / 4) :: base64EncChar (b0 % 4 * 16 + b1 / 16) ::
    base64EncChar (b1 % 16 * 4 + b2 / 64) :: base64EncChar (b2 % 64) ::
    base64Encode rest

/-- `BASE64.decode` with no padding; rejects stray lengths and (like the
`base64` crate's default config) non-zero trailing bits. -/
def base64Decode : Bytes → Option Bytes
  | [] => some []
  | [_] => none
  | [c0, c1] =>
    match base64DecChar c0, base64DecChar c1 with
    | some v0, some v1 =>
      if v1 % 16 = 0 then some [v0 * 4 + v1 / 16] else none
    | _, _ => none
  | [c0, c1, c2] =>
    match base64DecChar c0, base64DecChar c1, base64DecChar c2 with
    | some v0, some v1, some v2 =>
      if v2 % 4 = 0 then some [v0 * 4 + v1 / 16, v1 % 16 * 16 + v2 / 4]
      else none
    | _, _, _ => none
  | c0 :: c1 :: c2 :: c3 :: rest =>
    match base64DecChar c0, base64DecChar c1, base64DecChar c2,
          base64DecChar c3, base64Decode rest with
    | some v0, some v1, some v2, some v3, some bs =>
      some ((v0 * 4 + v1 / 16) :: (v1 % 16 * 16 + v2 / 4) :: (v2 % 4 * 64 + v3) :: bs)
    | _, _, _, _, _ => none

/-- ASCII whitespace test, for `str::trim` on the master-key file. -/
def isWsByte (b : Nat) : Bool :=
  b = 9 || b = 10 || b = 11 || b = 12 || b = 13 || b = 32

/-- `str::trim` on the (ASCII) contents of the master-key file. -/
def trimBytes (s : Bytes) : Bytes :=
  ((s.dropWhile isWsByte).reverse.dropWhile isWsByte).reverse

/-! ### AEAD model (ring::aead AES-256-GCM, modelled from the spec) -/

def SALT_LENGTH : Nat := 16
def MASTER_KEY_LENGTH : Nat := 32
def TAG_LENGTH : Nat := 16

/-- The all-zero 96-bit nonce used by both `encrypt` and `decrypt`. -/
def nonce0 : Bytes := List.replicate 12 0

/-- Modelled from the spec: a byte of keystream / tag material derived from
`material` and the position `i` (stand-in for the AES-256 key schedule). -/
def prfByte (material : Bytes) (i : Nat) : Nat :=
  material.foldl (fun a b => (a * 131 + b + 1) % 256) (i % 256)

/-- XOR a byte stream derived from `material` onto `bs`, starting at
counter `i`: the CTR-mode confidentiality layer.  Involutive. -/
def xorStream (material : Bytes) : Nat → Bytes → Bytes
  | _, [] => []
  | i, b :: bs => (b ^^^ prfByte material i) :: xorStream material (i + 1) bs

/-- Modelled from the spec: the 16-byte authentication tag, bound to the
key, nonce, associated data and ciphertext.  As in GHASH with a one-block
AAD, the tag is affine in the 16-byte AAD. -/
def tagBytes (key nonce aad ct : Bytes) : Bytes :=
  (List.range TAG_LENGTH).map
    (fun i => aad.getD i 0 ^^^ prfByte (key ++ nonce ++ ct) i)

/-- `seal_in_place_append_tag`: ciphertext followed by the 16-byte tag. -/
def sealBytes (key nonce aad pt : Bytes) : Bytes :=
  let ct := xorStream (key ++ nonce) 0 pt
  ct ++ tagBytes key nonce aad ct

/-- `open_in_place`: split off the 16-byte tag, verify it against the
presented AAD, and only then decrypt. -/
def openBytes (key nonce aad ctt : Bytes) : Option Bytes :=
  if ctt.length < TAG_LENGTH then none
  else
    let ct := ctt.take (ctt.length - TAG_LENGTH)
    let tag := ctt.drop (ctt.length - TAG_LENGTH)
    if tag = tagBytes key nonce aad ct then some (xorStream (key ++ nonce) 0 ct)
    else none

/-! ### src/auth.rs: master key, cipher wrappers, token generation -/

/-- The `if let Ok(existing_key) / else` block of `get_or_create_master_key`:
read and decode the persisted key, or generate 32 random bytes, encode them
and write the file.  Returns the key bytes and the resulting file state. -/
def readOrCreateKeyBytes (fs : Option Bytes) (rng : Nat → Nat) :
    Except String Bytes × Option Bytes :=
  match fs with
  | some existing =>
    (match base64Decode (trimBytes existing) with
     | none => Except.error ("invalid base64")
     | some key => Except.ok key,
     some existing)
  | none =>
    let key := (List.range MASTER_KEY_LENGTH).map (fun i => rng i % 256)
    (Except.ok key, some (base64Encode key))

/-- `get_or_create_master_key` of src/auth.rs (the file system is passed in
and returned explicitly; the wrapping into `aead::LessSafeKey` carries no
data beyond the 32 key bytes). -/
def get_or_create_master_key (fs : Option Bytes) (rng : Nat → Nat) :
    Except String Bytes × Option Bytes :=
  match readOrCreateKeyBytes fs rng with
  | (Except.error e, fs2) => (Except.error e, fs2)
  | (Except.ok key, fs2) =>
    if key.length ≠ MASTER_KEY_LENGTH then
      (Except.error ("Invalid master key length"), fs2)
    else (Except.ok key, fs2)

/-- `generate_salt` of src/auth.rs: 16 bytes from the secure RNG. -/
def generate_salt (rng : Nat → Nat) : Bytes :=
  (List.range SALT_LENGTH).map (fun i => rng i % 256)

/-- The body of `encrypt` after the master key is obtained: seal under the
zero nonce with the salt as AAD, then base64-encode. -/
def encryptCore (key plaintext salt : Bytes) : Bytes :=
  base64Encode (sealBytes key nonce0 salt plaintext)

/-- The body of `decrypt` after the master key is obtained: base64-decode,
then open under the zero nonce with the salt as AAD.
(`String::from_utf8` is the identity in the byte-list model.) -/
def decryptCore (key ciphertext salt : Bytes) : Except String Bytes :=
  match base64Decode ciphertext with
  | none => Except.error ("invalid base64")
  | some ctBytes =>
    match openBytes key nonce0 salt ctBytes with
    | none => Except.error ("Decryption failed")
    | some pt => Except.ok pt

/-! ### World state: master-key file, database, authorization cache -/

/-- One row of the `api_keys` table (`salt` and `api_key` are the TEXT
columns holding base64 data; timestamps are abstract `Nat`). -/
structure DbRow where
  salt : Bytes
  api_key : Bytes
  created_at : Nat
  revoked_at : Option Nat
deriving DecidableEq

abbrev Db := List DbRow

/-- The `API_KEYS` map: plaintext token to decoded salt. -/
abbrev Cache := List (Bytes × Bytes)

/-- `HashMap::contains_key`. -/
def cacheContains (c : Cache) (k : Bytes) : Bool :=
  c.any (fun p => decide (p.1 = k))

/-- `HashMap::insert`: replace the value if the key is present, else add. -/
def cacheInsert (c : Cache) (k v : Bytes) : Cache :=
  if c.any (fun p => decide (p.1 = k)) then
    c.map (fun p => if p.1 = k then (k, v) else p)
  else (k, v) :: c

/-- The state touched by the subsystem: the `master.key` file, the
`api_keys` table and the in-memory `API_KEYS` cache. -/
structure World where
  masterFile : Option Bytes
  db : Db
  cache : Cache
deriving DecidableEq

/-- `encrypt` of src/auth.rs: obtains the master key (possibly creating the
key file), then seals. -/
def encrypt (rng : Nat → Nat) (plaintext salt : Bytes) (w : World) :
    Except String Bytes × World :=
  match get_or_create_master_key w.masterFile rng with
  | (Except.error e, fs2) => (Except.error e, { w with masterFile := fs2 })
  | (Except.ok key, fs2) =>
    (Except.ok (encryptCore key plaintext salt), { w with masterFile := fs2 })

/-- `decrypt` of src/auth.rs. -/
def decrypt (rng : Nat → Nat) (ciphertext salt : Bytes) (w : World) :
    Except String Bytes × World :=
  match get_or_create_master_key w.masterFile rng with
  | (Except.error e, fs2) => (Except.error e, { w with masterFile := fs2 })
  | (Except.ok key, fs2) =>
    (decryptCore key ciphertext salt, { w with masterFile := fs2 })

/-- The 62-byte alphanumeric alphabet sampled by `fastrand::alphanumeric`. -/
def alphanumericChars : Bytes :=
  (List.range 10).map (fun i => 48 + i) ++ (List.range 26).map (fun i => 65 + i)
    ++ (List.range 26).map (fun i => 97 + i)

/-- `fastrand::alphanumeric`: one uniformly chosen alphanumeric byte. -/
def fastrandAlphanumeric (r : Nat) : Nat := alphanumericChars.getD (r % 62) 48

/-- `create_api_key` of src/auth.rs: 40 random alphanumeric characters. -/
def create_api_key (rng : Nat → Nat) : Bytes :=
  (List.range 40).map (fun i => fastrandAlphanumeric (rng i))

/-! ### src/db.rs: Query::execute -/

/-- `Query::StoreApiKey`: `INSERT INTO api_keys (api_key, salt, created_at)
VALUES (?1, ?2, ?3)` — appends a row with `revoked_at` NULL. -/
def queryStoreApiKey (salt api_key : Bytes) (now : Nat) (db : Db) : Db :=
  db ++ [{ salt := salt, api_key := api_key, created_at := now, revoked_at := none }]

/-- `Query::RevokeApiKey`: `UPDATE api_keys SET revoked_at = ?1 WHERE
api_key = ?2` — stamps every row whose `api_key` column equals the
presented token. -/
def queryRevokeApiKey (key : Bytes) (now : Nat) (db : Db) : Db :=
  db.map (fun r => if r.api_key = key then { r with revoked_at := some now } else r)

/-! ### src/auth.rs: load / store / revoke / check -/

/-- The row loop of `load_api_keys`: for each selected row, base64-decode
the salt, decrypt the stored ciphertext, and insert into the live cache.
Any failure aborts the loop at once, keeping the insertions made so far. -/
def loadRows (rng : Nat → Nat) : List DbRow → World → Except String Unit × World
  | [], w => (Except.ok (), w)
  | r :: rest, w =>
    match base64Decode r.salt with
    | none => (Except.error ("invalid base64"), w)
    | some salt =>
      match decrypt rng r.api_key salt w with
      | (Except.error e, w2) => (Except.error e, w2)
      | (Except.ok api_key, w2) =>
        loadRows rng rest { w2 with cache := cacheInsert w2.cache api_key salt }

/-- `SELECT api_key, salt FROM api_keys WHERE revoked_at IS NULL`. -/
def activeRows (db : Db) : List DbRow := db.filter (fun r => r.revoked_at.isNone)

/-- `load_api_keys` of src/auth.rs. -/
def load_api_keys (rng : Nat → Nat) (w : World) : Except String Unit × World :=
  loadRows rng (activeRows w.db) w

/-- `store_api_key` of src/auth.rs: generate a salt, encrypt the token,
insert the (encrypted token, encoded salt) row, then reload the cache. -/
def store_api_key (saltRng keyRng : Nat → Nat) (api_key : Bytes) (now : Nat)
    (w : World) : Except String Unit × World :=
  let salt := generate_salt saltRng
  match encrypt keyRng api_key salt w with
  | (Except.error e, w2) => (Except.error e, w2)
  | (Except.ok enc, w2) =>
    load_api_keys keyRng { w2 with db := queryStoreApiKey (base64Encode salt) enc now w2.db }

/-- `revoke_api_key` of src/auth.rs: run the UPDATE, then reload the cache. -/
def revoke_api_key (rng : Nat → Nat) (token : Bytes) (now : Nat) (w : World) :
    Except String Unit × World :=
  load_api_keys rng { w with db := queryRevokeApiKey token now w.db }

/-- `is_key_allowed_access` of src/auth.rs: a pure cache lookup. -/
def is_key_allowed_access (api_key : Bytes) (w : World) : Bool :=
  cacheContains w.cache api_key

/-! ### Operation traces (for the monotonicity claim) -/

/-- One call into the subsystem's mutating surface. -/
inductive Op where
  | opLoad (rng : Nat → Nat)
  | opStore (saltRng keyRng : Nat → Nat) (apiKey : Bytes) (now : Nat)
  | opRevoke (rng : Nat → Nat) (token : Bytes) (now : Nat)

def runOp (w : World) : Op → World
  | Op.opLoad rng => (load_api_keys rng w).2
  | Op.opStore saltRng keyRng apiKey now => (store_api_key saltRng keyRng apiKey now w).2
  | Op.opRevoke rng token now => (revoke_api_key rng token now w).2

def runOps (w : World) (ops : List Op) : World := ops.foldl runOp w

/-! ### Helper predicates for stating invariants -/

/-- A stored row is loadable: its salt decodes and its ciphertext decrypts
under the master key `kk`. -/
def rowOkB (kk : Bytes) (r : DbRow) : Bool :=
  match base64Decode r.salt with
  | none => false
  | some salt =>
    match decryptCore kk r.api_key salt with
    | Except.ok _ => true
    | Except.error _ => false

/-- The plaintext token a stored row decrypts to (meaningful when
`rowOkB` holds). -/
def rowToken (kk : Bytes) (r : DbRow) : Bytes :=
  match base64Decode r.salt with
  | none => []
  | some salt =>
    match decryptCore kk r.api_key salt with
    | Except.ok t => t
    | Except.error _ => []

/-- Alphanumeric ASCII byte. -/
def isAlphanumByteB (b : Nat) : Bool :=
  (48 ≤ b && b ≤ 57) || (65 ≤ b && b ≤ 90) || (97 ≤ b && b ≤ 122)

/-- The fresh key generated by `get_or_create_master_key` when no file
exists. -/
def freshKey (rng : Nat → Nat) : Bytes :=
  (List.range MASTER_KEY_LENGTH).map (fun i => rng i % 256)

/-- The row appended by `store_api_key` for token `T` under master key
`kk` and salt stream `saltRng`. -/
def storedRow (saltRng : Nat → Nat) (kk T : Bytes) (now : Nat) : DbRow :=
  { salt := base64Encode (generate_salt saltRng)
    api_key := encryptCore kk T (generate_salt saltRng)
    created_at := now
    revoked_at := none }

/-! ### Concrete inputs used by the counterexamples and witnesses -/

def rngId : Nat → Nat := fun i => i

def key0 : Bytes := (List.range MASTER_KEY_LENGTH).map (fun i => (i * 7 + 3) % 256)

def mkFile0 : Bytes := base64Encode key0

/-- Fresh process state: valid key file, empty table, empty cache. -/
def w0 : World := { masterFile := some mkFile0, db := [], cache := [] }

def tok0 : Bytes := create_api_key rngId

def salt0 : Bytes := generate_salt rngId

/-- A second salt, distinct from `salt0`. -/
def salt1 : Bytes := generate_salt (fun i => i + 1)

/-- State after `store_api_key` persisted `tok0` into `w0`. -/
def w1 : World := (store_api_key rngId rngId tok0 0 w0).2

/-- The ciphertext column value stored for `tok0`. -/
def ct0 : Bytes := encryptCore key0 tok0 salt0

/-- A row whose salt column is not valid base64 (one stray byte). -/
def badRow : DbRow := { salt := [33], api_key := [], created_at := 0, revoked_at := none }

/-- A loadable row holding `tok0`. -/
def goodRow : DbRow :=
  { salt := base64Encode salt0, api_key := ct0, created_at := 0, revoked_at := none }

/-- State whose table has a loadable row followed by a corrupt one. -/
def wCorrupt : World := { masterFile := some mkFile0, db := [goodRow, badRow], cache := [] }

/-- Same, but the cache already holds `tok0` from an earlier load. -/
def wCorruptLoaded : World :=
  { masterFile := some mkFile0, db := [goodRow, badRow], cache := [(tok0, salt0)] }

/-- A state whose cache holds `tok0` with an empty table. -/
def wCacheOnly : World :=
  { masterFile := some mkFile0, db := [], cache := [(tok0, salt0)] }

end HelloActix

namespace HelloActix

/-! ## Lemmas about the base64 codec -/

theorem base64DecChar_encChar : ∀ v < 64, base64DecChar (base64EncChar v) = some v := by
  decide

theorem base64EncChar_ge (v : Nat) : 43 ≤ base64EncChar v := by
  unfold base64EncChar
  split
  · omega
  split
  · omega
  split
  · omega
  split
  · omega
  · omega

theorem base64Encode_mem_ge : ∀ (bs : Bytes), ∀ c ∈ base64Encode bs, 43 ≤ c
  | [] => by simp [base64Encode]
  | [b0] => by
    simp only [base64Encode, List.mem_cons, List.not_mem_nil, or_false]
    rintro c (rfl | rfl) <;> exact base64EncChar_ge _
  | [b0, b1] => by
    simp only [base64Encode, List.mem_cons, List.not_mem_nil, or_false]
    rintro c (rfl | rfl | rfl) <;> exact base64EncChar_ge _
  | b0 :: b1 :: b2 :: rest => by
    simp only [base64Encode, List.mem_cons]
    rintro c (rfl | rfl | rfl | rfl | hc)
    · exact base64EncChar_ge _
    · exact base64EncChar_ge _
    · exact base64EncChar_ge _
    · exact base64EncChar_ge _
    · exact base64Encode_mem_ge rest c hc

theorem dropWhile_eq_self_of_not (p : Nat → Bool) :
    ∀ (l : Bytes), (∀ c ∈ l, p c = false) → l.dropWhile p = l
  | [], _ => rfl
  | a :: l, h => by
    have ha : p a = false := h a (List.mem_cons_self a l)
    simp [List.dropWhile, ha]

theorem trimBytes_eq_self (s : Bytes) (h : ∀ c ∈ s, isWsByte c = false) :
    trimBytes s = s := by
  unfold trimBytes
  rw [dropWhile_eq_self_of_not _ s h]
  rw [dropWhile_eq_self_of_not _ s.reverse (fun c hc => h c (List.mem_reverse.mp hc))]
  exact List.reverse_reverse s

theorem trimBytes_base64Encode (bs : Bytes) : trimBytes (base64Encode bs) = base64Encode bs := by
  apply trimBytes_eq_self
  intro c hc
  have := base64Encode_mem_ge bs c hc
  simp only [isWsByte, Bool.or_eq_false_iff, decide_eq_false_iff_not]
  omega

theorem base64Decode_encode : ∀ (bs : Bytes), (∀ b ∈ bs, b < 256) →
    base64Decode (base64Encode bs) = some bs
  | [], _ => rfl
  | [b0], h => by
    have hb0 : b0 < 256 := h b0 (by simp)
    have e0 := base64DecChar_encChar (b0 / 4) (by omega)
    have e1 := base64DecChar_encChar (b0 % 4 * 16) (by omega)
    simp only [base64Encode, base64Decode, e0, e1]
    rw [if_pos (by omega)]
    simp only [Option.some.injEq, List.cons.injEq, eq_self_iff_true, and_true]
    omega
  | [b0, b1], h => by
    have hb0 : b0 < 256 := h b0 (by simp)
    have hb1 : b1 < 256 := h b1 (by simp)
    have e0 := base64DecChar_encChar (b0 / 4) (by omega)
    have e1 := base64DecChar_encChar (b0 % 4 * 16 + b1 / 16) (by omega)
    have e2 := base64DecChar_encChar (b1 % 16 * 4) (by omega)
    simp only [base64Encode, base64Decode, e0, e1, e2]
    rw [if_pos (by omega)]
    simp only [Option.some.injEq, List.cons.injEq, eq_self_iff_true, and_true]
    omega
  | b0 :: b1 :: b2 :: rest, h => by
    have hb0 : b0 < 256 := h b0 (by simp)
    have hb1 : b1 < 256 := h b1 (by simp)
    have hb2 : b2 < 256 := h b2 (by simp)
    have ih := base64Decode_encode rest (fun b hb => h b (by simp [hb]))
    have e0 := base64DecChar_encChar (b0 / 4) (by omega)
    have e1 := base64DecChar_encChar (b0 % 4 * 16 + b1 / 16) (by omega)
    have e2 := base64DecChar_encChar (b1 % 16 * 4 + b2 / 64) (by omega)
    have e3 := base64DecChar_encChar (b2 % 64) (by omega)
    simp only [base64Encode, base64Decode, e0, e1, e2, e3, ih]
    simp only [Option.some.injEq, List.cons.injEq, eq_self_iff_true, and_true]
    omega

theorem base64Encode_length : ∀ (bs : Bytes),
    (base64Encode bs).length
      = 4 * (bs.length / 3) + bs.length % 3 + (if bs.length % 3 = 0 then 0 else 1)
  | [] => rfl
  | [b0] => by norm_num [base64Encode]
  | [b0, b1] => by norm_num [base64Encode]
  | b0 :: b1 :: b2 :: rest => by
    have ih := base64Encode_length rest
    simp only [base64Encode, List.length_cons, ih]
    have h3 : (rest.length + 1 + 1 + 1) % 3 = rest.length % 3 := by omega
    have h4 : (rest.length + 1 + 1 + 1) / 3 = rest.length / 3 + 1 := by omega
    simp only [h3, h4]
    split
    · omega
    · omega

end HelloActix

namespace HelloActix

/-! ## Lemmas about the AEAD model -/

theorem sealBytes_def (key nonce aad pt : Bytes) :
    sealBytes key nonce aad pt
      = xorStream (key ++ nonce) 0 pt
        ++ tagBytes key nonce aad (xorStream (key ++ nonce) 0 pt) := rfl

theorem foldlByteStep_lt : ∀ (l : Bytes) (a : Nat), a < 256 →
    l.foldl (fun a b => (a * 131 + b + 1) % 256) a < 256
  | [], _, h => h
  | b :: l, a, _ => foldlByteStep_lt l _ (Nat.mod_lt _ (by omega))

theorem prfByte_lt (material : Bytes) (i : Nat) : prfByte material i < 256 :=
  foldlByteStep_lt material _ (Nat.mod_lt _ (by omega))

theorem xorStream_length (material : Bytes) :
    ∀ (i : Nat) (bs : Bytes), (xorStream material i bs).length = bs.length
  | _, [] => rfl
  | i, b :: bs => by
    simp only [xorStream, List.length_cons, xorStream_length material (i + 1) bs]

theorem xorStream_invol (material : Bytes) :
    ∀ (i : Nat) (bs : Bytes), xorStream material i (xorStream material i bs) = bs
  | _, [] => rfl
  | i, b :: bs => by
    simp only [xorStream, Nat.xor_cancel_right, List.cons.injEq, true_and]
    exact xorStream_invol material (i + 1) bs

theorem xorStream_lt (material : Bytes) :
    ∀ (i : Nat) (bs : Bytes), (∀ b ∈ bs, b < 256) →
      ∀ c ∈ xorStream material i bs, c < 256
  | _, [], _ => by simp [xorStream]
  | i, b :: bs, h => by
    simp only [xorStream, List.mem_cons]
    rintro c (rfl | hc)
    · have h1 : b < 2 ^ 8 := h b (List.mem_cons_self b bs)
      have h2 : prfByte material i < 2 ^ 8 := by simpa using prfByte_lt material i
      simpa using Nat.xor_lt_two_pow h1 h2
    · exact xorStream_lt material (i + 1) bs (fun b2 hb2 => h b2 (by simp [hb2])) c hc

theorem getD_lt_of_forall_lt (aad : Bytes) (i : Nat) (haad : ∀ b ∈ aad, b < 256) :
    aad.getD i 0 < 256 := by
  rcases Nat.lt_or_ge i aad.length with h | h
  · rw [List.getD_eq_getElem aad 0 h]
    exact haad _ (aad.getElem_mem h)
  · rw [List.getD_eq_default aad 0 h]
    omega

theorem tagBytes_length (key nonce aad ct : Bytes) :
    (tagBytes key nonce aad ct).length = TAG_LENGTH := by
  simp [tagBytes]

theorem tagBytes_lt (key nonce aad ct : Bytes) (haad : ∀ b ∈ aad, b < 256) :
    ∀ c ∈ tagBytes key nonce aad ct, c < 256 := by
  intro c hc
  simp only [tagBytes, List.mem_map, List.mem_range] at hc
  obtain ⟨i, _, rfl⟩ := hc
  have h1 : aad.getD i 0 < 2 ^ 8 := by simpa using getD_lt_of_forall_lt aad i haad
  have h2 : prfByte (key ++ nonce ++ ct) i < 2 ^ 8 := by
    simpa using prfByte_lt (key ++ nonce ++ ct) i
  simpa using Nat.xor_lt_two_pow h1 h2

theorem sealBytes_length (key nonce aad pt : Bytes) :
    (sealBytes key nonce aad pt).length = pt.length + TAG_LENGTH := by
  rw [sealBytes_def]
  simp [xorStream_length, tagBytes_length]

theorem sealBytes_lt (key nonce aad pt : Bytes)
    (hpt : ∀ b ∈ pt, b < 256) (haad : ∀ b ∈ aad, b < 256) :
    ∀ c ∈ sealBytes key nonce aad pt, c < 256 := by
  intro c hc
  rw [sealBytes_def] at hc
  rcases List.mem_append.mp hc with hc | hc
  · exact xorStream_lt _ 0 pt hpt c hc
  · exact tagBytes_lt _ _ _ _ haad c hc

theorem openBytes_sealBytes (key nonce aad pt : Bytes) :
    openBytes key nonce aad (sealBytes key nonce aad pt) = some pt := by
  rw [sealBytes_def]
  have hct : (xorStream (key ++ nonce) 0 pt).length = pt.length := xorStream_length _ 0 pt
  have htag := tagBytes_length key nonce aad (xorStream (key ++ nonce) 0 pt)
  simp only [openBytes, List.length_append, hct, htag]
  rw [if_neg (by simp only [TAG_LENGTH]; omega)]
  have hsub : pt.length + TAG_LENGTH - TAG_LENGTH = (xorStream (key ++ nonce) 0 pt).length := by
    omega
  rw [hsub, List.take_left, List.drop_left, if_pos rfl, xorStream_invol]

theorem tagBytes_aad_injective (key nonce ct s1 s2 : Bytes)
    (h1 : s1.length = SALT_LENGTH) (h2 : s2.length = SALT_LENGTH)
    (heq : tagBytes key nonce s1 ct = tagBytes key nonce s2 ct) : s1 = s2 := by
  apply List.ext_getElem (by rw [h1, h2])
  intro i hi1 hi2
  have hi : i < TAG_LENGTH := by
    simp only [SALT_LENGTH] at h1
    simp only [TAG_LENGTH]
    omega
  have hpt := congrArg (fun l => l.getD i 0) heq
  simp only [tagBytes, List.getD_eq_getElem?_getD, List.getElem?_map,
    List.getElem?_range hi, Option.map_some, Option.getD_some] at hpt
  have hg := Nat.xor_left_injective (n := prfByte (key ++ nonce ++ ct) i) hpt
  rw [List.getElem?_eq_getElem hi1, List.getElem?_eq_getElem hi2,
    Option.getD_some, Option.getD_some] at hg
  exact hg

theorem openBytes_sealBytes_wrong_aad (key nonce s1 s2 pt : Bytes)
    (h1 : s1.length = SALT_LENGTH) (h2 : s2.length = SALT_LENGTH) (hne : s1 ≠ s2) :
    openBytes key nonce s2 (sealBytes key nonce s1 pt) = none := by
  rw [sealBytes_def]
  have hct : (xorStream (key ++ nonce) 0 pt).length = pt.length := xorStream_length _ 0 pt
  have htag := tagBytes_length key nonce s1 (xorStream (key ++ nonce) 0 pt)
  simp only [openBytes, List.length_append, hct, htag]
  rw [if_neg (by simp only [TAG_LENGTH]; omega)]
  have hsub : pt.length + TAG_LENGTH - TAG_LENGTH = (xorStream (key ++ nonce) 0 pt).length := by
    omega
  rw [hsub, List.take_left, List.drop_left]
  rw [if_neg]
  intro hcontra
  exact hne (tagBytes_aad_injective key nonce _ s1 s2 h1 h2 hcontra)

end HelloActix

namespace HelloActix

/-! ## Lemmas about the cache -/

theorem cacheInsert_fst (k v : Bytes) (p : Bytes × Bytes) :
    ((fun p : Bytes × Bytes => if p.1 = k then (k, v) else p) p).1 = p.1 := by
  by_cases h : p.1 = k
  · simp [h]
  · simp [h]

theorem cacheContains_cacheInsert_of_contains (c : Cache) (k v : Bytes)
    (h : cacheContains c k = true) (t : Bytes) :
    cacheContains (cacheInsert c k v) t = cacheContains c t := by
  unfold cacheContains at h ⊢
  unfold cacheInsert
  rw [if_pos h, List.any_map]
  congr 1
  funext p
  by_cases h2 : p.1 = k
  · simp [Function.comp, h2]
  · simp [Function.comp, h2]

theorem cacheContains_cacheInsert_mono (c : Cache) (k v t : Bytes)
    (h : cacheContains c t = true) :
    cacheContains (cacheInsert c k v) t = true := by
  unfold cacheContains at h ⊢
  unfold cacheInsert
  split
  · rw [List.any_map]
    rw [List.any_eq_true] at h ⊢
    obtain ⟨p, hp, hpt⟩ := h
    exact ⟨p, hp, by simpa [cacheInsert_fst] using hpt⟩
  · simp only [List.any_cons, Bool.or_eq_true]
    exact Or.inr h

/-! ## Lemmas about decrypt / loadRows / the operations -/

theorem decrypt_db_cache (rng : Nat → Nat) (ciphertext salt : Bytes) (w : World) :
    (decrypt rng ciphertext salt w).2.db = w.db
      ∧ (decrypt rng ciphertext salt w).2.cache = w.cache := by
  unfold decrypt
  rcases h : get_or_create_master_key w.masterFile rng with ⟨res, fs2⟩
  cases res <;> simp

theorem loadRows_db (rng : Nat → Nat) :
    ∀ (rows : List DbRow) (w : World), (loadRows rng rows w).2.db = w.db
  | [], w => rfl
  | r :: rest, w => by
    rcases hdec : base64Decode r.salt with _ | salt
    · simp [loadRows, hdec]
    · rcases hd : decrypt rng r.api_key salt w with ⟨res, w2⟩
      have hdb : w2.db = w.db := by
        have h3 := (decrypt_db_cache rng r.api_key salt w).1
        rw [hd] at h3
        exact h3
      cases res with
      | error e => simp [loadRows, hdec, hd, hdb]
      | ok api_key =>
        simp only [loadRows, hdec, hd]
        rw [loadRows_db rng rest _]
        simpa using hdb

theorem loadRows_contains_mono (rng : Nat → Nat) :
    ∀ (rows : List DbRow) (w : World) (t : Bytes),
      cacheContains w.cache t = true →
      cacheContains (loadRows rng rows w).2.cache t = true
  | [], w, t, h => h
  | r :: rest, w, t, h => by
    rcases hdec : base64Decode r.salt with _ | salt
    · simpa [loadRows, hdec] using h
    · rcases hd : decrypt rng r.api_key salt w with ⟨res, w2⟩
      have hcache : w2.cache = w.cache := by
        have h3 := (decrypt_db_cache rng r.api_key salt w).2
        rw [hd] at h3
        exact h3
      cases res with
      | error e => simpa [loadRows, hdec, hd, hcache] using h
      | ok api_key =>
        simp only [loadRows, hdec, hd]
        apply loadRows_contains_mono rng rest _ t
        simp only [hcache]
        exact cacheContains_cacheInsert_mono _ _ _ _ h

theorem load_api_keys_db (rng : Nat → Nat) (w : World) :
    (load_api_keys rng w).2.db = w.db := loadRows_db rng (activeRows w.db) w

theorem load_api_keys_contains_mono (rng : Nat → Nat) (w : World) (t : Bytes)
    (h : cacheContains w.cache t = true) :
    cacheContains (load_api_keys rng w).2.cache t = true :=
  loadRows_contains_mono rng (activeRows w.db) w t h

end HelloActix

namespace HelloActix
/-! ## Master-key stability -/

theorem freshKey_lt (rng : Nat → Nat) : ∀ b ∈ freshKey rng, b < 256 := by
  intro b hb
  simp only [freshKey, List.mem_map] at hb
  obtain ⟨i, _, rfl⟩ := hb
  exact Nat.mod_lt _ (by omega)

theorem freshKey_length (rng : Nat → Nat) : (freshKey rng).length = MASTER_KEY_LENGTH := by
  simp [freshKey]

theorem get_or_create_master_key_none (rng : Nat → Nat) :
    get_or_create_master_key none rng
      = (Except.ok (freshKey rng), some (base64Encode (freshKey rng))) := by
  simp only [get_or_create_master_key, readOrCreateKeyBytes, freshKey]
  rw [if_neg (by simp)]

theorem get_or_create_master_key_some (s k : Bytes)
    (rng : Nat → Nat) (hdec : base64Decode (trimBytes s) = some k)
    (hlen : k.length = MASTER_KEY_LENGTH) :
    get_or_create_master_key (some s) rng = (Except.ok k, some s) := by
  simp only [get_or_create_master_key, readOrCreateKeyBytes, hdec]
  rw [if_neg (by omega)]

/-- Once `get_or_create_master_key` has returned a key, every later call on
the resulting file state returns the same key and leaves the file alone. -/
theorem get_or_create_master_key_stable (fs fs2 : Option Bytes) (rng rng2 : Nat → Nat)
    (key : Bytes) (h : get_or_create_master_key fs rng = (Except.ok key, fs2)) :
    get_or_create_master_key fs2 rng2 = (Except.ok key, fs2) := by
  rcases fs with _ | s
  · -- no file: a fresh key was generated and written
    rw [get_or_create_master_key_none rng] at h
    simp only [Prod.mk.injEq, Except.ok.injEq] at h
    obtain ⟨hkey, hfs⟩ := h
    rw [← hfs, ← hkey]
    apply get_or_create_master_key_some
    · rw [trimBytes_base64Encode]
      exact base64Decode_encode _ (freshKey_lt rng)
    · exact freshKey_length rng
  · -- existing file: the call is deterministic and leaves the file alone
    simp only [get_or_create_master_key, readOrCreateKeyBytes] at h
    rcases hdec : base64Decode (trimBytes s) with _ | k
    · rw [hdec] at h
      simp at h
    · rw [hdec] at h
      simp only [] at h
      by_cases hlen : k.length ≠ MASTER_KEY_LENGTH
      · rw [if_pos hlen] at h
        simp at h
      · rw [if_neg hlen] at h
        simp only [Prod.mk.injEq, Except.ok.injEq] at h
        obtain ⟨hkey, hfs⟩ := h
        rw [← hfs, ← hkey]
        exact get_or_create_master_key_some s k rng2 hdec (by omega)

/-! ## Successful, already-synchronised loads -/

/-- If the master key is readable, every row of `rows` is loadable, and every
row's token is already a cache key, then `loadRows` succeeds and changes
nothing observable: same db, same file, same cache membership. -/
theorem loadRows_synced (rng : Nat → Nat) (kk : Bytes) :
    ∀ (rows : List DbRow) (w : World),
      (∀ r2 : Nat → Nat, get_or_create_master_key w.masterFile r2 = (Except.ok kk, w.masterFile)) →
      (∀ r ∈ rows, rowOkB kk r = true) →
      (∀ r ∈ rows, cacheContains w.cache (rowToken kk r) = true) →
      (loadRows rng rows w).1 = Except.ok ()
        ∧ (loadRows rng rows w).2.masterFile = w.masterFile
        ∧ ∀ t, cacheContains (loadRows rng rows w).2.cache t = cacheContains w.cache t
  | [], w, _, _, _ => ⟨rfl, rfl, fun _ => rfl⟩
  | r :: rest, w, hGood, hRows, hSync => by
    have hok : rowOkB kk r = true := hRows r (List.mem_cons_self r rest)
    rcases hdec : base64Decode r.salt with _ | salt
    · simp only [rowOkB, hdec] at hok
      exact absurd hok (by simp)
    · rcases hcore : decryptCore kk r.api_key salt with e | tk
      · simp only [rowOkB, hdec, hcore] at hok
        exact absurd hok (by simp)
      · have htok : rowToken kk r = tk := by
          simp only [rowToken, hdec, hcore]
        have hd : decrypt rng r.api_key salt w = (Except.ok tk, w) := by
          unfold decrypt
          rw [hGood rng]
          simp only [hcore]
        have hmem : cacheContains w.cache tk = true := by
          rw [← htok]
          exact hSync r (List.mem_cons_self r rest)
        have hcc := cacheContains_cacheInsert_of_contains w.cache tk salt hmem
        have ih := loadRows_synced rng kk rest
          { w with cache := cacheInsert w.cache tk salt }
          (fun r2 => hGood r2)
          (fun r2 hr2 => hRows r2 (List.mem_cons_of_mem r hr2))
          (fun r2 hr2 => by
            simp only []
            rw [hcc]
            exact hSync r2 (List.mem_cons_of_mem r hr2))
        simp only [loadRows, hdec, hd]
        refine ⟨ih.1, ih.2.1, fun t => ?_⟩
        rw [ih.2.2 t]
        simp only []
        exact hcc t

end HelloActix

namespace HelloActix

/-! ## Facts about revocation and active rows -/

theorem map_id_of_mem {α : Type} : ∀ (l : List α) (f : α → α), (∀ x ∈ l, f x = x) → l.map f = l
  | [], _, _ => rfl
  | x :: l, f, h => by
    rw [List.map_cons, h x (List.mem_cons_self x l),
      map_id_of_mem l f (fun y hy => h y (List.mem_cons_of_mem x hy))]

theorem queryRevokeApiKey_noop (key : Bytes) (now : Nat) (db : Db)
    (h : ∀ r ∈ db, r.api_key ≠ key) : queryRevokeApiKey key now db = db := by
  unfold queryRevokeApiKey
  apply map_id_of_mem
  intro r hr
  rw [if_neg (h r hr)]

theorem mem_activeRows (db : Db) (r : DbRow) (h : r ∈ activeRows db) :
    r ∈ db ∧ r.revoked_at.isNone = true := by
  unfold activeRows at h
  exact ⟨(List.mem_filter.mp h).1, (List.mem_filter.mp h).2⟩

theorem mem_activeRows_queryRevoke (key : Bytes) (now : Nat) (db : Db) (r2 : DbRow)
    (h : r2 ∈ activeRows (queryRevokeApiKey key now db)) :
    r2 ∈ db ∧ r2.revoked_at.isNone = true := by
  obtain ⟨hmem, hact⟩ := mem_activeRows _ r2 h
  unfold queryRevokeApiKey at hmem
  obtain ⟨r, hr, hfr⟩ := List.mem_map.mp hmem
  by_cases hk : r.api_key = key
  · rw [if_pos hk] at hfr
    rw [← hfr] at hact
    simp at hact
  · rw [if_neg hk] at hfr
    rw [← hfr]
    exact ⟨hr, hfr ▸ hact⟩

/-! ## Encrypted-column length -/

theorem encryptCore_length (key pt salt : Bytes) (h : pt.length = 40) :
    (encryptCore key pt salt).length = 75 := by
  unfold encryptCore
  rw [base64Encode_length, sealBytes_length, h]
  rfl

/-! ## Cache monotonicity of each operation -/

theorem encrypt_db_cache (rng : Nat → Nat) (plaintext salt : Bytes) (w : World) :
    (encrypt rng plaintext salt w).2.db = w.db
      ∧ (encrypt rng plaintext salt w).2.cache = w.cache := by
  unfold encrypt
  rcases h : get_or_create_master_key w.masterFile rng with ⟨res, fs2⟩
  cases res <;> simp

theorem store_api_key_contains_mono (saltRng keyRng : Nat → Nat) (apiKey : Bytes)
    (now : Nat) (w : World) (t : Bytes) (h : cacheContains w.cache t = true) :
    cacheContains (store_api_key saltRng keyRng apiKey now w).2.cache t = true := by
  unfold store_api_key
  rcases he : encrypt keyRng apiKey (generate_salt saltRng) w with ⟨res, w2⟩
  have hcache : w2.cache = w.cache := by
    have h3 := (encrypt_db_cache keyRng apiKey (generate_salt saltRng) w).2
    rw [he] at h3
    exact h3
  cases res with
  | error e =>
    simp only [he]
    simpa [hcache] using h
  | ok enc =>
    simp only [he]
    apply load_api_keys_contains_mono
    simpa [hcache] using h

theorem revoke_api_key_contains_mono (rng : Nat → Nat) (token : Bytes) (now : Nat)
    (w : World) (t : Bytes) (h : cacheContains w.cache t = true) :
    cacheContains (revoke_api_key rng token now w).2.cache t = true := by
  unfold revoke_api_key
  apply load_api_keys_contains_mono
  simpa using h

theorem runOp_contains_mono (w : World) (op : Op) (t : Bytes)
    (h : cacheContains w.cache t = true) :
    cacheContains (runOp w op).cache t = true := by
  cases op with
  | opLoad rng => exact load_api_keys_contains_mono rng w t h
  | opStore saltRng keyRng apiKey now => exact store_api_key_contains_mono saltRng keyRng apiKey now w t h
  | opRevoke rng token now => exact revoke_api_key_contains_mono rng token now w t h

end HelloActix

namespace HelloActix

/-! ## Claim theorems -/

/-- Claim C8: every value returned by `create_api_key` is a string of
exactly 40 alphanumeric characters; the function reads only its random
stream and touches no other state (it takes no `World` and returns only
the token). -/
theorem create_api_key_length_alphanumeric (rng : Nat → Nat) :
    (create_api_key rng).length = 40
      ∧ (create_api_key rng).all isAlphanumByteB = true := by
  constructor
  · simp [create_api_key]
  · rw [List.all_eq_true]
    intro b hb
    simp only [create_api_key, List.mem_map, List.mem_range] at hb
    obtain ⟨i, _, rfl⟩ := hb
    have h62 : ∀ m < 62, isAlphanumByteB (alphanumericChars.getD m 48) = true := by decide
    unfold fastrandAlphanumeric
    exact h62 _ (Nat.mod_lt _ (by omega))

/-- Claim C10: `load_api_keys` only inserts into the cache and never
removes entries, so a token accepted by `is_key_allowed_access` stays
accepted across any sequence of load / store / revoke calls. -/
theorem cache_monotone_over_operations :
    ∀ (ops : List Op) (w : World) (T : Bytes),
      is_key_allowed_access T w = true → is_key_allowed_access T (runOps w ops) = true
  | [], _, _, h => h
  | op :: ops, w, T, h =>
    cache_monotone_over_operations ops (runOp w op) T (runOp_contains_mono w op T h)

/-- Witness for C10 at a concrete state: a cached token survives a reload
and a revocation. -/
theorem cache_monotone_over_operations_witness :
    is_key_allowed_access tok0
      (runOps wCacheOnly [Op.opLoad rngId, Op.opRevoke rngId tok0 3]) = true :=
  cache_monotone_over_operations [Op.opLoad rngId, Op.opRevoke rngId tok0 3]
    wCacheOnly tok0 (by decide)

/-- Claim C7: `get_or_create_master_key` decodes a persisted key, fails
with the invalid-length error when the decoded key is not 32 bytes, and
otherwise generates a fresh 32-byte key, persists it, and returns that
same key on every later call against the persisted state. -/
theorem get_or_create_master_key_spec :
    (∀ (s k : Bytes) (rng : Nat → Nat),
        base64Decode (trimBytes s) = some k → k.length = MASTER_KEY_LENGTH →
        get_or_create_master_key (some s) rng = (Except.ok k, some s))
      ∧ (∀ (s k : Bytes) (rng : Nat → Nat),
          base64Decode (trimBytes s) = some k → k.length ≠ MASTER_KEY_LENGTH →
          get_or_create_master_key (some s) rng
            = (Except.error ("Invalid master key length"), some s))
      ∧ (∀ rng : Nat → Nat,
          get_or_create_master_key none rng
              = (Except.ok (freshKey rng), some (base64Encode (freshKey rng)))
            ∧ (freshKey rng).length = MASTER_KEY_LENGTH
            ∧ ∀ rng2 : Nat → Nat,
                get_or_create_master_key (some (base64Encode (freshKey rng))) rng2
                  = (Except.ok (freshKey rng), some (base64Encode (freshKey rng)))) := by
  refine ⟨fun s k rng hdec hlen => get_or_create_master_key_some s k rng hdec hlen,
    fun s k rng hdec hlen => ?_,
    fun rng => ⟨get_or_create_master_key_none rng, freshKey_length rng, fun rng2 => ?_⟩⟩
  · simp only [get_or_create_master_key, readOrCreateKeyBytes, hdec]
    rw [if_pos hlen]
  · exact get_or_create_master_key_stable none _ rng rng2 _ (get_or_create_master_key_none rng)

/-- Witness for C7: the three behaviours at concrete inputs. -/
theorem get_or_create_master_key_spec_witness :
    get_or_create_master_key (some mkFile0) rngId = (Except.ok key0, some mkFile0)
      ∧ get_or_create_master_key (some (base64Encode [1, 2, 3])) rngId
          = (Except.error ("Invalid master key length"), some (base64Encode [1, 2, 3]))
      ∧ get_or_create_master_key (some (base64Encode (freshKey rngId))) rngId
          = (Except.ok (freshKey rngId), some (base64Encode (freshKey rngId))) :=
  ⟨get_or_create_master_key_spec.1 mkFile0 key0 rngId (by decide) (by decide),
   get_or_create_master_key_spec.2.1 (base64Encode [1, 2, 3]) [1, 2, 3] rngId
     (by decide) (by decide),
   (get_or_create_master_key_spec.2.2 rngId).2.2 rngId⟩

/-- Claim C3 (amended): when a record fails to decode or decrypt,
`load_api_keys` returns the error, but the cache is not rolled back:
the table is unchanged and every key present before the call is still
present, while rows processed before the failing one have already been
inserted. -/
theorem load_api_keys_failure_preserves_db_and_keys (rng : Nat → Nat) (w : World)
    (e : String) (_h : (load_api_keys rng w).1 = Except.error e) :
    (load_api_keys rng w).2.db = w.db
      ∧ ∀ t, cacheContains w.cache t = true →
          cacheContains (load_api_keys rng w).2.cache t = true :=
  ⟨load_api_keys_db rng w, fun t ht => load_api_keys_contains_mono rng w t ht⟩

/-- Witness for the amended C3 at a concrete failing load. -/
theorem load_api_keys_failure_preserves_witness :
    (load_api_keys rngId wCorruptLoaded).2.db = wCorruptLoaded.db
      ∧ cacheContains (load_api_keys rngId wCorruptLoaded).2.cache tok0 = true :=
  ⟨(load_api_keys_failure_preserves_db_and_keys rngId wCorruptLoaded
      "invalid base64" (by rfl)).1,
   (load_api_keys_failure_preserves_db_and_keys rngId wCorruptLoaded
      "invalid base64" (by rfl)).2 tok0 (by decide)⟩

end HelloActix

namespace HelloActix

/-- Claim C4: decrypting the result of encrypting a plaintext under a salt,
with the same salt and the master key produced by the encrypting call,
succeeds and returns the plaintext. -/
theorem encrypt_decrypt_roundtrip (rngA rngB : Nat → Nat) (pt salt : Bytes) (w : World)
    (ct : Bytes) (hpt : ∀ b ∈ pt, b < 256) (hsalt : ∀ b ∈ salt, b < 256)
    (henc : (encrypt rngA pt salt w).1 = Except.ok ct) :
    decrypt rngB ct salt (encrypt rngA pt salt w).2
      = (Except.ok pt, (encrypt rngA pt salt w).2) := by
  unfold encrypt at henc ⊢
  rcases hk : get_or_create_master_key w.masterFile rngA with ⟨res, fs2⟩
  cases res with
  | error e =>
    rw [hk] at henc
    simp at henc
  | ok key =>
    rw [hk] at henc
    simp only [] at henc
    replace henc : encryptCore key pt salt = ct := by
      simpa using henc
    have hstable := get_or_create_master_key_stable w.masterFile fs2 rngA rngB key hk
    simp only []
    unfold decrypt
    simp only [hstable]
    rw [← henc]
    unfold decryptCore encryptCore
    rw [base64Decode_encode _ (sealBytes_lt key nonce0 salt pt hpt hsalt)]
    simp only [openBytes_sealBytes]

/-- Witness for C4: round trip at a concrete token, salt and key file. -/
theorem encrypt_decrypt_roundtrip_witness :
    decrypt rngId (encryptCore key0 tok0 salt0) salt0 (encrypt rngId tok0 salt0 w0).2
      = (Except.ok tok0, (encrypt rngId tok0 salt0 w0).2) :=
  encrypt_decrypt_roundtrip rngId rngId tok0 salt0 w0 (encryptCore key0 tok0 salt0)
    (by decide) (by decide) (by rfl)

/-- Claim C5: decrypting a ciphertext sealed under one salt with a
different 16-byte salt fails with the decryption-failed error (the salt is
bound as associated authenticated data). -/
theorem decrypt_wrong_salt_fails (rngA rngB : Nat → Nat) (pt s1 s2 : Bytes) (w : World)
    (ct : Bytes) (hpt : ∀ b ∈ pt, b < 256) (hs1 : ∀ b ∈ s1, b < 256)
    (h1 : s1.length = SALT_LENGTH) (h2 : s2.length = SALT_LENGTH) (hne : s1 ≠ s2)
    (henc : (encrypt rngA pt s1 w).1 = Except.ok ct) :
    decrypt rngB ct s2 (encrypt rngA pt s1 w).2
      = (Except.error ("Decryption failed"), (encrypt rngA pt s1 w).2) := by
  unfold encrypt at henc ⊢
  rcases hk : get_or_create_master_key w.masterFile rngA with ⟨res, fs2⟩
  cases res with
  | error e =>
    rw [hk] at henc
    simp at henc
  | ok key =>
    rw [hk] at henc
    simp only [] at henc
    replace henc : encryptCore key pt s1 = ct := by
      simpa using henc
    have hstable := get_or_create_master_key_stable w.masterFile fs2 rngA rngB key hk
    simp only []
    unfold decrypt
    simp only [hstable]
    rw [← henc]
    unfold decryptCore encryptCore
    rw [base64Decode_encode _ (sealBytes_lt key nonce0 s1 pt hpt hs1)]
    simp only [openBytes_sealBytes_wrong_aad key nonce0 s1 s2 pt h1 h2 hne]

end HelloActix

namespace HelloActix

/-- Witness for C5: wrong salt at concrete inputs yields the error. -/
theorem decrypt_wrong_salt_fails_witness :
    decrypt rngId (encryptCore key0 tok0 salt0) salt1 (encrypt rngId tok0 salt0 w0).2
      = (Except.error ("Decryption failed"), (encrypt rngId tok0 salt0 w0).2) :=
  decrypt_wrong_salt_fails rngId rngId tok0 salt0 salt1 w0 (encryptCore key0 tok0 salt0)
    (by decide) (by decide) (by decide) (by decide) (by decide) (by rfl)

/-- Claim C6: revoking a token that is not the token of any active stored
credential returns success, and access checks for every other token are
unchanged (given a readable master key and a cache already synchronised
with the active records, as after any successful load). -/
theorem revoke_unknown_token_preserves_access (rng : Nat → Nat) (U : Bytes) (now : Nat)
    (w : World) (kk : Bytes)
    (hGood : ∀ r2 : Nat → Nat,
      get_or_create_master_key w.masterFile r2 = (Except.ok kk, w.masterFile))
    (hRows : ∀ r ∈ w.db, r.revoked_at.isNone = true → rowOkB kk r = true)
    (hSync : ∀ r ∈ w.db, r.revoked_at.isNone = true →
      cacheContains w.cache (rowToken kk r) = true)
    (_hU : ∀ r ∈ w.db, r.revoked_at.isNone = true → rowToken kk r ≠ U) :
    (revoke_api_key rng U now w).1 = Except.ok ()
      ∧ ∀ T, T ≠ U →
          is_key_allowed_access T (revoke_api_key rng U now w).2
            = is_key_allowed_access T w := by
  unfold revoke_api_key load_api_keys
  have hmem : ∀ r2 ∈ activeRows (queryRevokeApiKey U now w.db),
      r2 ∈ w.db ∧ r2.revoked_at.isNone = true :=
    fun r2 hr2 => mem_activeRows_queryRevoke U now w.db r2 hr2
  have hs := loadRows_synced rng kk (activeRows (queryRevokeApiKey U now w.db))
    { w with db := queryRevokeApiKey U now w.db }
    (fun r2 => hGood r2)
    (fun r hr => hRows r (hmem r hr).1 (hmem r hr).2)
    (fun r hr => hSync r (hmem r hr).1 (hmem r hr).2)
  exact ⟨hs.1, fun T _ => hs.2.2 T⟩

/-- Witness for C6: revoking an unknown one-byte token after one issuance
succeeds and leaves the issued token's access unchanged. -/
theorem revoke_unknown_token_preserves_access_witness :
    (revoke_api_key rngId [0] 5 w1).1 = Except.ok ()
      ∧ is_key_allowed_access tok0 (revoke_api_key rngId [0] 5 w1).2
          = is_key_allowed_access tok0 w1 :=
  ⟨(revoke_unknown_token_preserves_access rngId [0] 5 w1 key0
      (fun r2 => rfl) (by decide) (by decide) (by decide)).1,
   (revoke_unknown_token_preserves_access rngId [0] 5 w1 key0
      (fun r2 => rfl) (by decide) (by decide) (by decide)).2 tok0 (by decide)⟩

/-- Claim C9: `store_api_key` persists only the encrypted form of the
token (75 base64 characters, never equal to the 40-character token), and
because `revoke_api_key` compares that column against the plaintext
token, the revocation UPDATE matches nothing: every row's `revoked_at`
is left unchanged. -/
theorem store_encrypts_and_revoke_misses (saltRng keyRng rngB : Nat → Nat) (T : Bytes)
    (now nowB : Nat) (w : World) (kk : Bytes)
    (hGood : ∀ r2 : Nat → Nat,
      get_or_create_master_key w.masterFile r2 = (Except.ok kk, w.masterFile))
    (hT : T.length = 40)
    (hDb : ∀ r ∈ w.db, r.api_key.length ≠ 40) :
    (store_api_key saltRng keyRng T now w).2.db = w.db ++ [storedRow saltRng kk T now]
      ∧ (storedRow saltRng kk T now).api_key.length = 75
      ∧ (storedRow saltRng kk T now).api_key ≠ T
      ∧ (storedRow saltRng kk T now).revoked_at = none
      ∧ (revoke_api_key rngB T nowB (store_api_key saltRng keyRng T now w).2).2.db
          = (store_api_key saltRng keyRng T now w).2.db := by
  have hlen75 : (storedRow saltRng kk T now).api_key.length = 75 :=
    encryptCore_length kk T _ hT
  have hstore : (store_api_key saltRng keyRng T now w).2.db
      = w.db ++ [storedRow saltRng kk T now] := by
    unfold store_api_key
    have he : encrypt keyRng T (generate_salt saltRng) w
        = (Except.ok (encryptCore kk T (generate_salt saltRng)), w) := by
      unfold encrypt
      rw [hGood keyRng]
    simp only [he]
    rw [load_api_keys_db]
    rfl
  refine ⟨hstore, hlen75, ?_, rfl, ?_⟩
  · intro hcontra
    have hl := congrArg List.length hcontra
    rw [hlen75, hT] at hl
    omega
  · unfold revoke_api_key
    rw [load_api_keys_db]
    show queryRevokeApiKey T nowB (store_api_key saltRng keyRng T now w).2.db
        = (store_api_key saltRng keyRng T now w).2.db
    rw [hstore]
    apply queryRevokeApiKey_noop
    intro r hr
    rcases List.mem_append.mp hr with hold | hnew
    · intro hcontra2
      exact hDb r hold (by rw [hcontra2, hT])
    · have hrow : r = storedRow saltRng kk T now := by simpa using hnew
      rw [hrow]
      intro hcontra2
      have hl := congrArg List.length hcontra2
      rw [hlen75, hT] at hl
      omega

/-- Witness for C9 at a concrete issuance and revocation attempt. -/
theorem store_encrypts_and_revoke_misses_witness :
    (store_api_key rngId rngId tok0 0 w0).2.db = w0.db ++ [storedRow rngId key0 tok0 0]
      ∧ (storedRow rngId key0 tok0 0).api_key.length = 75
      ∧ (storedRow rngId key0 tok0 0).api_key ≠ tok0
      ∧ (storedRow rngId key0 tok0 0).revoked_at = none
      ∧ (revoke_api_key rngId tok0 1 (store_api_key rngId rngId tok0 0 w0).2).2.db
          = (store_api_key rngId rngId tok0 0 w0).2.db :=
  store_encrypts_and_revoke_misses rngId rngId rngId tok0 0 1 w0 key0
    (fun r2 => rfl) (by decide) (by decide)

end HelloActix

namespace HelloActix

/-- Claim C1 (code bug): after `store_api_key` issues `tok0`,
`revoke_api_key tok0` returns success and the follow-up load completes,
yet `is_key_allowed_access tok0` is still true — and stays true after a
further `load_api_keys` — because the UPDATE compares the plaintext token
against the encrypted `api_key` column (matching no row) and the cache is
never purged. -/
theorem revoke_api_key_leaves_token_authorized :
    (store_api_key rngId rngId tok0 0 w0).1 = Except.ok ()
      ∧ is_key_allowed_access tok0 w1 = true
      ∧ (revoke_api_key rngId tok0 1 w1).1 = Except.ok ()
      ∧ is_key_allowed_access tok0 (revoke_api_key rngId tok0 1 w1).2 = true
      ∧ (load_api_keys rngId (revoke_api_key rngId tok0 1 w1).2).1 = Except.ok ()
      ∧ is_key_allowed_access tok0
          (load_api_keys rngId (revoke_api_key rngId tok0 1 w1).2).2 = true :=
  ⟨rfl, rfl, rfl, rfl, rfl, rfl⟩

/-- Claim C2 (code bug): after the stored row is revoked (here by
presenting the ciphertext column value itself, which the UPDATE does
match), a successful load leaves the cache still containing `tok0`, even
though no active record remains — the cache is a strict superset of the
active records' tokens, not equal to it. -/
theorem load_api_keys_keeps_stale_token :
    w1.db = [goodRow]
      ∧ (revoke_api_key rngId ct0 1 w1).1 = Except.ok ()
      ∧ activeRows (revoke_api_key rngId ct0 1 w1).2.db = []
      ∧ is_key_allowed_access tok0 (revoke_api_key rngId ct0 1 w1).2 = true :=
  ⟨rfl, rfl, rfl, rfl⟩

/-- Claim C3 counterexample: with an empty cache and a table holding a
loadable row followed by a corrupt one, `load_api_keys` fails — but the
cache is not left as it was: the first row's token has been inserted. -/
theorem load_api_keys_failure_mutates_cache :
    wCorrupt.cache = []
      ∧ (load_api_keys rngId wCorrupt).1 = Except.error ("invalid base64")
      ∧ (load_api_keys rngId wCorrupt).2.cache = [(tok0, salt0)] :=
  ⟨rfl, rfl, rfl⟩

end HelloActix
